import Mathlib

/-!
Verification of the portrait-directory organizer (src/main.rs).

The filesystem is modelled as a tree of entries: a regular file with byte
contents, or a directory with an ordered list of named children (the order
models the order in which read_dir yields entries). Paths are lists of
component names; names are strings (the source compares OsStr bytes, which
for the ASCII names involved coincides with character lists). All
definitions are translated from src/main.rs; definitions whose doc comment
says "Spec:" instead restate wording of the specification or of a claim,
for comparison against the code-derived definitions.
-/

/-- Component name of a path. -/
abbrev Name := String

/-- Absolute path, as the list of its components. -/
abbrev FsPath := List Name

/-- Filesystem entry: a regular file with its byte contents, or a directory
with its ordered list of named children. -/
inductive Entry where
  | file : List Nat → Entry
  | dir : List (Name × Entry) → Entry

/-- True when the entry is a directory (entry.path().is_dir() on a child the
walker already holds). -/
def Entry.isDirB : Entry → Bool
  | .dir _ => true
  | _ => false

/-- Resolve a path below an entry, one component at a time, as the OS
resolves path lookups. -/
def Entry.find : Entry → FsPath → Option Entry
  | e, [] => some e
  | .dir cs, n :: p =>
      match cs.find? (fun c => c.1 == n) with
      | some c => c.2.find p
      | none => none
  | .file _, _ :: _ => none

/-- Path.exists() of the Rust standard library: the path resolves to some
entry. -/
def pathExists (fs : Entry) (p : FsPath) : Bool :=
  (fs.find p).isSome

/-- Path.is_dir(): the path resolves to a directory. -/
def pathIsDir (fs : Entry) (p : FsPath) : Bool :=
  match fs.find p with
  | some (.dir _) => true
  | _ => false

/-- FsPath resolves to a regular file. -/
def pathIsFile (fs : Entry) (p : FsPath) : Bool :=
  match fs.find p with
  | some (.file _) => true
  | _ => false

/-- PortraitDir::include (src/main.rs lines 18-24): the three marker paths
below the directory all exist, checked with Path.exists(). -/
def PortraitDir.include (fs : Entry) (p : FsPath) : Bool :=
  pathExists fs (p ++ ["Small.png"]) &&
  pathExists fs (p ++ ["Medium.png"]) &&
  pathExists fs (p ++ ["Fulllength.png"])

/-- NonPortraitDir::include (src/main.rs lines 28-32): the negation of
PortraitDir::include. -/
def NonPortraitDir.include (fs : Entry) (p : FsPath) : Bool :=
  !(PortraitDir.include fs p)

/-- Read the full contents of a regular file; none when the path does not
resolve to a regular file (File::open or read_to_end fails). -/
def readFile (fs : Entry) (p : FsPath) : Option (List Nat) :=
  match fs.find p with
  | some (.file b) => some b
  | _ => none

/-- Checksum (src/main.rs lines 34-39): one digest per marker file. The
digest function itself (md5) is kept abstract as a parameter. -/
structure Checksum where
  small : List Nat
  medium : List Nat
  full : List Nat
deriving DecidableEq

/-- Checksum::from_dir (src/main.rs lines 42-51): digest each of the three
marker files, none as soon as one of them cannot be read. -/
def Checksum.from_dir (md5 : List Nat → List Nat) (fs : Entry) (dir : FsPath) : Option Checksum :=
  match readFile fs (dir ++ ["Small.png"]) with
  | none => none
  | some s =>
    match readFile fs (dir ++ ["Medium.png"]) with
    | none => none
    | some m =>
      match readFile fs (dir ++ ["Fulllength.png"]) with
      | none => none
      | some f => some ⟨md5 s, md5 m, md5 f⟩

mutual

/-- Scan::scan_dir (src/main.rs lines 86-108) applied to the entry a
directory path resolves to: one pass over the children records every child
directory accepted by the classifier, in directory order, then the walk
recurses into each child directory in the same order. Files are never
recorded and never descended into. -/
def scanEntry (incl : FsPath → Bool) (p : FsPath) : Entry → List FsPath
  | .file _ => []
  | .dir cs =>
      ((cs.filter (fun c => c.2.isDirB)).filter (fun c => incl (p ++ [c.1]))).map
        (fun c => p ++ [c.1]) ++
      scanChildren incl p cs

/-- Recursion of Scan::scan_dir into the collected child directories
(the dirs_to_scan loop): child directories are visited in order; file
children contribute nothing. -/
def scanChildren (incl : FsPath → Bool) (p : FsPath) : List (Name × Entry) → List FsPath
  | [] => []
  | c :: rest =>
      (if c.2.isDirB then scanEntry incl (p ++ [c.1]) c.2 else []) ++
      scanChildren incl p rest

end

/-- Scan::new (src/main.rs lines 75-84): start the walk at the root path.
When the root cannot be listed (missing, or a file), read_dir fails and the
result stays empty. -/
def Scan.new (incl : FsPath → Bool) (fs : Entry) (root : FsPath) : List FsPath :=
  match fs.find root with
  | some e => scanEntry incl root e
  | none => []

/-- Boolean nodup check on a list of names. -/
def nodupNames : List Name → Bool
  | [] => true
  | x :: xs => (!decide (x ∈ xs)) && nodupNames xs

mutual

/-- Well-formed filesystem entry: sibling names are distinct at every
directory, as they are on a real filesystem. -/
def Entry.wfB : Entry → Bool
  | .file _ => true
  | .dir cs => nodupNames (cs.map Prod.fst) && Entry.wfChildren cs

/-- Well-formedness of a children list: every child entry is well formed. -/
def Entry.wfChildren : List (Name × Entry) → Bool
  | [] => true
  | c :: rest => c.2.wfB && Entry.wfChildren rest

end

mutual

/-- Spec: discovery order of a pre-order depth-first traversal, the order
claimed for the scan result: each directory is recorded (when it qualifies)
at the moment it is visited, and the whole subtree of a child is traversed
before the next sibling is visited. The root itself is not a candidate. -/
def preorderScan (incl : FsPath → Bool) (p : FsPath) : Entry → List FsPath
  | .file _ => []
  | .dir cs => preorderChildren incl p cs

/-- Spec: pre-order traversal of the children of a visited directory. -/
def preorderChildren (incl : FsPath → Bool) (p : FsPath) : List (Name × Entry) → List FsPath
  | [] => []
  | c :: rest =>
      (if c.2.isDirB then
        (if incl (p ++ [c.1]) then [p ++ [c.1]] else []) ++
          preorderScan incl (p ++ [c.1]) c.2
      else []) ++
      preorderChildren incl p rest

end

/-- Scan::erase_duplicates (src/main.rs lines 126-152), the Vec::retain
loop: entries are processed in scan order; cs gives the outcome of
Checksum::from_dir for an entry at the moment it is processed, del tells
whether std::fs::remove_dir_all succeeds on it. A seen set of checksums and
the erased counter are threaded through. -/
def eraseDupGo (cs : FsPath → Option Checksum) (del : FsPath → Bool) :
    List FsPath → List Checksum → Nat → (List FsPath × Nat)
  | [], _, er => ([], er)
  | d :: rest, seen, er =>
    match cs d with
    | none => ((eraseDupGo cs del rest seen er).1.cons d, (eraseDupGo cs del rest seen er).2)
    | some c =>
      if seen.contains c then
        eraseDupGo cs del rest seen (if del d then er + 1 else er)
      else
        ((eraseDupGo cs del rest (c :: seen) er).1.cons d,
         (eraseDupGo cs del rest (c :: seen) er).2)

/-- Scan::erase_duplicates: returns the retained entries (the mutated
self.dirs) and the erased counter. -/
def Scan.erase_duplicates (cs : FsPath → Option Checksum) (del : FsPath → Bool)
    (dirs : List FsPath) : List FsPath × Nat :=
  eraseDupGo cs del dirs [] 0

example : Scan.new (fun _ => true) (.dir [("A", .dir [("A1", .dir [])]), ("B", .dir [])]) []
    = [["A"], ["B"], ["A", "A1"]] := by decide

example : preorderScan (fun _ => true) [] (.dir [("A", .dir [("A1", .dir [])]), ("B", .dir [])])
    = [["A"], ["A", "A1"], ["B"]] := by decide

/-- Constant MAX_ATTEMPTS_WHEN_NEED_TO_KEEP_ORIGINAL_FILENAME. -/
def MAX_ATTEMPTS_WHEN_NEED_TO_KEEP_ORIGINAL_FILENAME : Nat := 1000

/-- Constant MAX_ATTEMPTS_WHEN_NO_NEED_TO_KEEP_ORIGINAL_FILENAME. -/
def MAX_ATTEMPTS_WHEN_NO_NEED_TO_KEEP_ORIGINAL_FILENAME : Nat := 1000000

/-- Zero-padded decimal rendering of a number, the semantics of the
format strings used in Move::rename. -/
def padZeros (width : Nat) (n : Nat) : String :=
  String.mk (List.replicate (width - (Nat.repr n).data.length) '0') ++ Nat.repr n

/-- OriginalFileName::stripped (src/main.rs lines 174-181), the while loop:
as long as the name still starts with the prefix, drop the prefix. Each pass
of the source loop removes at least one character when the prefix is
nonempty, so length-many passes are a bound; on an empty prefix the source
loop would not terminate, a case the command line parser rules out
(NonEmptyStringValueParser). -/
def strippedGo (dirPrefix : String) : Nat → String → String
  | 0, s => s
  | fuel + 1, s =>
      if dirPrefix.data.isPrefixOf s.data then
        strippedGo dirPrefix fuel (String.mk (s.data.drop dirPrefix.data.length))
      else s

/-- OriginalFileName::stripped, entry point of the loop. -/
def OriginalFileName.stripped (fileName : String) (dirPrefix : String) : String :=
  strippedGo dirPrefix (fileName.data.length + 1) fileName

/-- OriginalFileName (src/main.rs lines 154-157). -/
structure OriginalFileName where
  dir_components : List Name
  file_name : String
deriving DecidableEq

/-- OriginalFileName::new (src/main.rs lines 160-172): take the components
of the source directory below the scan root, pop the last one as the file
name (none when no component remains), and strip the prefix from it. -/
def OriginalFileName.new (dirPrefix : String) (scanSkipComponents : Nat)
    (dir : FsPath) : Option OriginalFileName :=
  let comps := dir.drop scanSkipComponents
  match comps.getLast? with
  | none => none
  | some last => some ⟨comps.dropLast, OriginalFileName.stripped last dirPrefix⟩

/-- Move::rename (src/main.rs lines 258-285): build the candidate file name
from the prefix, the retained path components each followed by an
underscore, the stripped leaf name, and on retries the 3-digit attempt
counter; without an original file name the candidate is the prefix followed
by the 6-digit attempt counter. The candidate lives in the target
directory. -/
def Move.rename (target : FsPath) (dirPrefix : String) (attempt : Nat)
    (originalFilename : Option OriginalFileName) : FsPath :=
  match originalFilename with
  | some ofn =>
      let base := ofn.dir_components.foldl (fun acc c => acc ++ c ++ "_") dirPrefix
      let withName := base ++ ofn.file_name
      let full := if 0 < attempt then withName ++ "_" ++ padZeros 3 attempt else withName
      target ++ [full]
  | none => target ++ [dirPrefix ++ padZeros 6 attempt]

/-- Candidate search loop of Move::new (src/main.rs lines 240-253): test the
candidate for the current attempt; when it is neither claimed in this run
nor on disk, accept it; otherwise move to the next attempt while any remain.
The remaining budget starts at max_attempts - 1, matching the source loop
that gives up once the attempt counter reaches max_attempts. -/
def searchName (bad : FsPath → Bool) (mk : Nat → FsPath) : Nat → Nat → Option FsPath
  | attempt, 0 => if bad (mk attempt) then none else some (mk attempt)
  | attempt, remaining + 1 =>
      if bad (mk attempt) then searchName bad mk (attempt + 1) remaining
      else some (mk attempt)

/-- Loop over the scanned source directories in Move::new (src/main.rs
lines 222-254): one output entry per source directory, and a claimed set of
already accepted destinations, grown only when a candidate is accepted. -/
def Move.go (fs : Entry) (target : FsPath) (dirPrefix : String) (keep : Bool)
    (scanSkip : Nat) : List FsPath → List FsPath → List (Option FsPath)
  | [], _ => []
  | dir :: rest, outputSet =>
      let params : Option (Option OriginalFileName × Nat) :=
        if keep then
          match OriginalFileName.new dirPrefix scanSkip dir with
          | none => none
          | some ofn => some (some ofn, MAX_ATTEMPTS_WHEN_NEED_TO_KEEP_ORIGINAL_FILENAME)
        else some (none, MAX_ATTEMPTS_WHEN_NO_NEED_TO_KEEP_ORIGINAL_FILENAME)
      match params with
      | none => none :: Move.go fs target dirPrefix keep scanSkip rest outputSet
      | some (ofn, maxAttempts) =>
          match searchName (fun r => outputSet.contains r || pathExists fs r)
              (fun a => Move.rename target dirPrefix a ofn) 0 (maxAttempts - 1) with
          | some r => some r :: Move.go fs target dirPrefix keep scanSkip rest (r :: outputSet)
          | none => none :: Move.go fs target dirPrefix keep scanSkip rest outputSet

/-- Move::new (src/main.rs lines 209-256): fail when the target is not a
directory, otherwise plan one destination option per scanned source
directory. The number of components of the scan root is the skip count for
original file names. -/
def Move.new (fs : Entry) (root : FsPath) (dirs : List FsPath) (target : FsPath)
    (dirPrefix : String) (keepOriginalPath : Bool) : Except String (List (Option FsPath)) :=
  if pathIsDir fs target then
    .ok (Move.go fs target dirPrefix keepOriginalPath root.length dirs [])
  else
    .error "target is not a directory"

/-- True when planning as a whole succeeded. -/
def exceptIsOk {ε α : Type} : Except ε α → Bool
  | .ok _ => true
  | .error _ => false

/-- Spec: join a list of name components with underscores. -/
def underscoreJoin : List String → String
  | [] => ""
  | [x] => x
  | x :: y :: xs => x ++ "_" ++ underscoreJoin (y :: xs)

/-- Spec: remove the configured prefix exactly once from the leaf name when
the leaf begins with it, as claim C6 words the stripping step. -/
def strippedOnce (fileName : String) (dirPrefix : String) : String :=
  if dirPrefix.data.isPrefixOf fileName.data then
    String.mk (fileName.data.drop dirPrefix.data.length)
  else fileName

/-- Spec: the directory at the path directly contains an entry with the
given name, of any kind. -/
def dirContainsEntry (fs : Entry) (p : FsPath) (n : Name) : Bool :=
  match fs.find p with
  | some (.dir cs) => (cs.find? (fun c => c.1 == n)).isSome
  | _ => false

/-- Spec: the directory at the path directly contains a regular file with
the given name, as claim C2 words the classifier. -/
def dirContainsFile (fs : Entry) (p : FsPath) (n : Name) : Bool :=
  match fs.find p with
  | some (.dir cs) =>
      match cs.find? (fun c => c.1 == n) with
      | some c => (match c.2 with | .file _ => true | .dir _ => false)
      | none => false
  | _ => false

/-- Spec: all three marker files present as entries of any kind. -/
def specCompleteSetEntries (fs : Entry) (p : FsPath) : Bool :=
  dirContainsEntry fs p "Small.png" && dirContainsEntry fs p "Medium.png" &&
  dirContainsEntry fs p "Fulllength.png"

/-- Spec: all three marker files present as regular files, the classifier as
claim C2 states it. -/
def specCompleteSetFiles (fs : Entry) (p : FsPath) : Bool :=
  dirContainsFile fs p "Small.png" && dirContainsFile fs p "Medium.png" &&
  dirContainsFile fs p "Fulllength.png"

example : padZeros 6 3 = "000003" := by decide

example : OriginalFileName.stripped "pf_portrait_pf_portrait_C" "pf_portrait_" = "C" := by decide

example : Move.rename ["t"] "pf_portrait_" 0
    (OriginalFileName.new "pf_portrait_" 0 ["A", "B", "pf_portrait_C"]) =
    ["t", "pf_portrait_A_B_C"] := by decide

example : Move.new (.dir [("t", .dir [])]) [] [["x"], ["y"]] ["t"] "pf_" false =
    .ok [some ["t", "pf_000000"], some ["t", "pf_000001"]] := rfl

/-! Helper lemmas about path resolution. -/

theorem Entry.find_append (q : FsPath) :
    ∀ (e : Entry) (p : FsPath), e.find (p ++ q) = (e.find p).bind (fun e2 => e2.find q) := by
  intro e p
  induction p generalizing e with
  | nil => simp [Entry.find]
  | cons n p ih =>
    cases e with
    | file b => simp [Entry.find]
    | dir cs =>
      simp only [List.cons_append, Entry.find]
      cases cs.find? (fun c => c.1 == n) with
      | none => simp
      | some c => simpa using ih c.2

theorem pathExists_append_single (fs : Entry) (p : FsPath) (n : Name) :
    pathExists fs (p ++ [n]) = dirContainsEntry fs p n := by
  simp only [pathExists, dirContainsEntry, Entry.find_append]
  cases h : fs.find p with
  | none => simp
  | some e =>
    cases e with
    | file b => simp [Entry.find]
    | dir cs =>
      cases h2 : cs.find? (fun c => c.1 == n) with
      | none => simp [Entry.find, h2]
      | some c => simp [Entry.find, h2]

/-- Claim C2, amended: PortraitDir::include is true exactly when the
directory directly contains entries named Small.png, Medium.png and
Fulllength.png of any kind (the source tests Path.exists(), which does not
require a regular file), and NonPortraitDir::include is its exact logical
negation. -/
theorem portraitDir_include_iff_marker_entries (fs : Entry) (p : FsPath) :
    (PortraitDir.include fs p = specCompleteSetEntries fs p) ∧
    (NonPortraitDir.include fs p = !(PortraitDir.include fs p)) := by
  refine ⟨?_, rfl⟩
  simp only [PortraitDir.include, specCompleteSetEntries, pathExists_append_single]

/-- Filesystem in which the directory d contains Small.png as a
subdirectory and the other two markers as regular files. -/
def fsC2 : Entry :=
  .dir [("d", .dir [("Small.png", .dir []), ("Medium.png", .file []),
    ("Fulllength.png", .file [])])]

/-- Claim C2, counterexample: the classifier accepts a directory whose
Small.png is itself a directory, not a regular file, so CompleteSet is not
the predicate that all three markers exist as regular files. -/
theorem portraitDir_include_not_regular_files_counterexample :
    PortraitDir.include fsC2 ["d"] = true ∧ specCompleteSetFiles fsC2 ["d"] = false := by
  decide

/-! Shape of the scan result: every recorded path properly extends the path
of the directory being scanned. -/

mutual

theorem scanEntry_shape (incl : FsPath → Bool) :
    ∀ (e : Entry) (p : FsPath), ∀ x ∈ scanEntry incl p e, ∃ s, s ≠ [] ∧ x = p ++ s
  | .file _, p => by simp [scanEntry]
  | .dir cs, p => by
      intro x hx
      rw [scanEntry] at hx
      rcases List.mem_append.mp hx with h | h
      · rcases List.mem_map.mp h with ⟨c, hc, rfl⟩
        exact ⟨[c.1], by simp, rfl⟩
      · rcases scanChildren_shape incl cs p x h with ⟨n, s, hn, hs, rfl⟩
        exact ⟨n :: s, by simp, rfl⟩

theorem scanChildren_shape (incl : FsPath → Bool) :
    ∀ (cs : List (Name × Entry)) (p : FsPath), ∀ x ∈ scanChildren incl p cs,
      ∃ n s, n ∈ cs.map Prod.fst ∧ s ≠ [] ∧ x = p ++ n :: s
  | [], p => by simp [scanChildren]
  | c :: rest, p => by
      intro x hx
      rw [scanChildren] at hx
      rcases List.mem_append.mp hx with h | h
      · by_cases hd : c.2.isDirB
        · rw [if_pos hd] at h
          rcases scanEntry_shape incl c.2 (p ++ [c.1]) x h with ⟨s, hs, rfl⟩
          exact ⟨c.1, s, by simp, hs, by simp⟩
        · rw [if_neg hd] at h
          simp at h
      · rcases scanChildren_shape incl rest p x h with ⟨n, s, hn, hs, rfl⟩
        exact ⟨n, s, by simp [hn], hs, rfl⟩

end

/-! The classifier is only ever consulted at proper extensions of the path
being scanned. -/

mutual

theorem scanEntry_congr (incl incl2 : FsPath → Bool) :
    ∀ (e : Entry) (p : FsPath),
      (∀ s : FsPath, s ≠ [] → incl (p ++ s) = incl2 (p ++ s)) →
      scanEntry incl p e = scanEntry incl2 p e
  | .file _, _ => fun _ => rfl
  | .dir cs, p => fun h => by
      rw [scanEntry, scanEntry]
      congr 1
      · apply congrArg
        apply List.filter_congr
        intro c hc
        exact h [c.1] (by simp)
      · exact scanChildren_congr incl incl2 cs p h

theorem scanChildren_congr (incl incl2 : FsPath → Bool) :
    ∀ (cs : List (Name × Entry)) (p : FsPath),
      (∀ s : FsPath, s ≠ [] → incl (p ++ s) = incl2 (p ++ s)) →
      scanChildren incl p cs = scanChildren incl2 p cs
  | [], _ => fun _ => rfl
  | c :: rest, p => fun h => by
      rw [scanChildren, scanChildren]
      congr 1
      · by_cases hd : c.2.isDirB
        · rw [if_pos hd, if_pos hd]
          apply scanEntry_congr
          intro s hs
          simpa [List.append_assoc] using h (c.1 :: s) (by simp)
        · rw [if_neg hd, if_neg hd]
      · exact scanChildren_congr incl incl2 rest p h

end

/-- Claim C10: the scan root is never evaluated by the classifier and never
appears in the scan result, even when it directly contains the three marker
files; every recorded path is a strict descendant of the root, and the scan
result does not depend on what the classifier answers at the root itself. -/
theorem scan_root_never_recorded (incl incl2 : FsPath → Bool) (fs : Entry) (root : FsPath) :
    root ∉ Scan.new incl fs root ∧
    (∀ x ∈ Scan.new incl fs root, ∃ s, s ≠ [] ∧ x = root ++ s) ∧
    ((∀ q, q ≠ root → incl q = incl2 q) → Scan.new incl fs root = Scan.new incl2 fs root) := by
  have hshape : ∀ x ∈ Scan.new incl fs root, ∃ s, s ≠ [] ∧ x = root ++ s := by
    intro x hx
    unfold Scan.new at hx
    cases h : fs.find root with
    | none => rw [h] at hx; simp at hx
    | some e => rw [h] at hx; exact scanEntry_shape incl e root x hx
  refine ⟨?_, hshape, ?_⟩
  · intro hmem
    rcases hshape root hmem with ⟨s, hs, heq⟩
    have : s = [] := by simpa using congrArg List.length heq
    exact hs this
  · intro h
    unfold Scan.new
    cases fs.find root with
    | none => rfl
    | some e =>
      apply scanEntry_congr
      intro s hs
      apply h
      intro heq
      have : s = [] := by simpa using congrArg List.length heq.symm
      exact hs this

/-- Filesystem whose root directly contains the three marker files, next to
a marker-complete subdirectory. -/
def fsC10 : Entry :=
  .dir [("Small.png", .file []), ("Medium.png", .file []), ("Fulllength.png", .file []),
    ("sub", .dir [("Small.png", .file []), ("Medium.png", .file []),
      ("Fulllength.png", .file [])])]

/-- Witness for C10: on a concrete filesystem whose root itself holds all
three marker files, the root path is still absent from the scan result. -/
theorem scan_root_never_recorded_witness :
    ([] : FsPath) ∉ Scan.new (PortraitDir.include fsC10) fsC10 [] :=
  (scan_root_never_recorded (PortraitDir.include fsC10) (PortraitDir.include fsC10)
    fsC10 []).1

/-- Order invariant of the scan result, stated for a pair (x, y) with x
recorded before y: it is not the case that x lies below the parent of y
while being strictly longer than y. Equivalently, a recorded directory
precedes every strictly longer recorded path below its own parent, which
covers both its own subtree and the inside of its sibling subtrees. -/
def scanOrderRel (x y : FsPath) : Prop :=
  ¬(y.dropLast <+: x ∧ y.length < x.length)

theorem wfChildren_mem : ∀ (cs : List (Name × Entry)), Entry.wfChildren cs = true →
    ∀ c ∈ cs, c.2.wfB = true
  | [], _, c, hc => by simp at hc
  | d :: rest, h, c, hc => by
      rw [Entry.wfChildren, Bool.and_eq_true] at h
      rcases List.mem_cons.mp hc with rfl | hc2
      · exact h.1
      · exact wfChildren_mem rest h.2 c hc2

mutual

theorem scanEntry_pairwise (incl : FsPath → Bool) :
    ∀ (e : Entry) (p : FsPath), e.wfB = true → (scanEntry incl p e).Pairwise scanOrderRel
  | .file _, p => by simp [scanEntry]
  | .dir cs, p => fun hwf => by
      rw [Entry.wfB, Bool.and_eq_true] at hwf
      rw [scanEntry, List.pairwise_append]
      refine ⟨?_, scanChildren_pairwise incl cs p hwf.1 hwf.2, ?_⟩
      · apply List.pairwise_of_forall_mem_list
        intro a ha b hb
        rcases List.mem_map.mp ha with ⟨c, _, rfl⟩
        rcases List.mem_map.mp hb with ⟨d, _, rfl⟩
        rintro ⟨-, hlen⟩
        simp only [List.length_append, List.length_cons, List.length_nil] at hlen
        omega
      · intro x hx y hy
        rcases List.mem_map.mp hx with ⟨c, _, rfl⟩
        rcases scanChildren_shape incl cs p y hy with ⟨n, s, -, hs, rfl⟩
        rintro ⟨-, hlen⟩
        have h0 : 0 < s.length := List.length_pos.mpr hs
        simp only [List.length_append, List.length_cons, List.length_nil] at hlen
        omega

theorem scanChildren_pairwise (incl : FsPath → Bool) :
    ∀ (cs : List (Name × Entry)) (p : FsPath),
      nodupNames (cs.map Prod.fst) = true → Entry.wfChildren cs = true →
      (scanChildren incl p cs).Pairwise scanOrderRel
  | [], p => by simp [scanChildren]
  | c :: rest, p => fun hnod hch => by
      rw [Entry.wfChildren, Bool.and_eq_true] at hch
      rw [List.map_cons, nodupNames, Bool.and_eq_true] at hnod
      rw [scanChildren, List.pairwise_append]
      refine ⟨?_, scanChildren_pairwise incl rest p hnod.2 hch.2, ?_⟩
      · by_cases hd : c.2.isDirB
        · rw [if_pos hd]
          exact scanEntry_pairwise incl c.2 (p ++ [c.1]) hch.1
        · rw [if_neg hd]; simp
      · intro x hx y hy
        by_cases hd : c.2.isDirB
        case neg => rw [if_neg hd] at hx; simp at hx
        rw [if_pos hd] at hx
        rcases scanEntry_shape incl c.2 (p ++ [c.1]) x hx with ⟨s, hs, rfl⟩
        rcases scanChildren_shape incl rest p y hy with ⟨n, t, hn, ht, rfl⟩
        have hne : n ≠ c.1 := by
          intro heq
          have hni : c.1 ∉ rest.map Prod.fst := by
            simpa using hnod.1
          rw [← heq] at hni
          exact hni hn
        rintro ⟨hpre, -⟩
        rw [List.dropLast_append_cons] at hpre
        rcases List.exists_cons_of_ne_nil ht with ⟨b, t2, rfl⟩
        have : p ++ n :: (b :: t2).dropLast <+: p ++ c.1 :: s := by
          simpa using hpre
        rw [List.prefix_append_right_inj, List.cons_prefix_cons] at this
        exact hne this.1

end

/-- Helper: well-formedness carries over to any entry a path resolves to. -/
theorem wfB_of_find : ∀ (root : FsPath) (g e : Entry),
    g.wfB = true → g.find root = some e → e.wfB = true
  | [], _, _, hwf, h => by
      rw [Entry.find] at h
      cases h
      exact hwf
  | n :: rest, g, e, hwf, h => by
      cases g with
      | file b => rw [Entry.find] at h; exact Option.noConfusion h
      | dir cs =>
        rw [Entry.find] at h
        cases h2 : cs.find? (fun c => c.1 == n) with
        | none => rw [h2] at h; exact Option.noConfusion h
        | some c =>
          rw [h2] at h
          rw [Entry.wfB, Bool.and_eq_true] at hwf
          exact wfB_of_find rest c.2 e
            (wfChildren_mem cs hwf.2 c (List.mem_of_find?_eq_some h2)) h

/-- Helper: the order invariant for the complete scan, started at a root
path in a well-formed filesystem. -/
theorem scan_new_pairwise (incl : FsPath → Bool) (fs : Entry) (root : FsPath)
    (hwf : fs.wfB = true) : (Scan.new incl fs root).Pairwise scanOrderRel := by
  unfold Scan.new
  cases h : fs.find root with
  | none => simp
  | some e => exact scanEntry_pairwise incl e root (wfB_of_find root fs e hwf h)

/-- Children list holding exactly the three marker files. -/
def markers : List (Name × Entry) :=
  [("Small.png", .file []), ("Medium.png", .file []), ("Fulllength.png", .file [])]

/-- Filesystem with qualifying directories A, B and A/A1: A and B are
siblings in that order, and A1 is a child of A. -/
def fsC3 : Entry :=
  .dir [("A", .dir (markers ++ [("A1", .dir markers)])), ("B", .dir markers)]

/-- Claim C3, counterexample: the scanner records A, then B, then A/A1,
while pre-order depth-first discovery order is A, A/A1, B; the scan result
is therefore not the pre-order discovery sequence. -/
theorem scan_order_not_preorder_counterexample :
    Scan.new (PortraitDir.include fsC3) fsC3 [] = [["A"], ["B"], ["A", "A1"]] ∧
    preorderScan (PortraitDir.include fsC3) [] fsC3 = [["A"], ["A", "A1"], ["B"]] ∧
    Scan.new (PortraitDir.include fsC3) fsC3 [] ≠
      preorderScan (PortraitDir.include fsC3) [] fsC3 := by
  decide

/-- Claim C3, amended: the scanner records all qualifying child directories
of a visited directory before descending into any of them, so a qualifying
directory is recorded before every entry of its own subtree and before
every entry lying strictly inside any sibling subtree; the sequence is not
in general the pre-order discovery order. Formally: a recorded entry is
never preceded by a strictly longer recorded path that lies below its own
parent. -/
theorem scan_order_parent_first (incl : FsPath → Bool) (fs : Entry) (root : FsPath)
    (hwf : fs.wfB = true) : (Scan.new incl fs root).Pairwise scanOrderRel :=
  scan_new_pairwise incl fs root hwf

/-- Witness for the amended C3 on the concrete tree fsC3. -/
theorem scan_order_parent_first_witness :
    (Scan.new (PortraitDir.include fsC3) fsC3 []).Pairwise scanOrderRel :=
  scan_order_parent_first (PortraitDir.include fsC3) fsC3 [] (by decide)

/-- Claim C4: in the scan result of a well-formed directory tree, whenever
one qualifying directory is an ancestor of another, the ancestor is
recorded strictly before the descendant; equivalently no recorded entry is
followed by a strict prefix of itself. -/
theorem scan_ancestor_precedes_descendant (incl : FsPath → Bool) (fs : Entry)
    (root : FsPath) (hwf : fs.wfB = true) :
    (Scan.new incl fs root).Pairwise (fun x y => ¬(y <+: x ∧ y ≠ x)) := by
  apply (scan_new_pairwise incl fs root hwf).imp
  intro x y hxy
  rintro ⟨hpre, hne⟩
  apply hxy
  refine ⟨(List.dropLast_prefix y).trans hpre, ?_⟩
  rcases Nat.lt_or_ge y.length x.length with hlt | hge
  · exact hlt
  · exact absurd (hpre.sublist.eq_of_length_le hge) hne

/-- Witness for C4 on the concrete tree fsC3, where A is an ancestor of
A/A1. -/
theorem scan_ancestor_precedes_descendant_witness :
    (Scan.new (PortraitDir.include fsC3) fsC3 []).Pairwise (fun x y => ¬(y <+: x ∧ y ≠ x)) :=
  scan_ancestor_precedes_descendant (PortraitDir.include fsC3) fsC3 [] (by decide)

/-! Lemmas about Scan::erase_duplicates. -/

theorem eraseDupGo_fst_congr (cs : FsPath → Option Checksum) (del del2 : FsPath → Bool) :
    ∀ (dirs : List FsPath) (seen : List Checksum) (er er2 : Nat),
      (eraseDupGo cs del dirs seen er).1 = (eraseDupGo cs del2 dirs seen er2).1
  | [], seen, er, er2 => rfl
  | d :: rest, seen, er, er2 => by
      cases hcd : cs d with
      | none =>
        simp only [eraseDupGo, hcd]
        exact congrArg _ (eraseDupGo_fst_congr cs del del2 rest seen er er2)
      | some c2 =>
        by_cases h2 : seen.contains c2
        · simp only [eraseDupGo, hcd, h2, if_pos]
          exact eraseDupGo_fst_congr cs del del2 rest seen _ _
        · simp only [eraseDupGo, hcd, h2, if_neg, Bool.false_eq_true, not_false_iff]
          exact congrArg _ (eraseDupGo_fst_congr cs del del2 rest (c2 :: seen) er er2)

theorem eraseDupGo_fst_sublist (cs : FsPath → Option Checksum) (del : FsPath → Bool) :
    ∀ (dirs : List FsPath) (seen : List Checksum) (er : Nat),
      (eraseDupGo cs del dirs seen er).1.Sublist dirs
  | [], _, _ => List.Sublist.refl []
  | d :: rest, seen, er => by
      cases hcd : cs d with
      | none =>
        simp only [eraseDupGo, hcd]
        exact (eraseDupGo_fst_sublist cs del rest seen er).cons₂ d
      | some c2 =>
        by_cases h2 : seen.contains c2
        · simp only [eraseDupGo, hcd, h2, if_pos]
          exact (eraseDupGo_fst_sublist cs del rest seen _).cons d
        · simp only [eraseDupGo, hcd, h2, if_neg, Bool.false_eq_true, not_false_iff]
          exact (eraseDupGo_fst_sublist cs del rest (c2 :: seen) er).cons₂ d

theorem eraseDupGo_none_kept (cs : FsPath → Option Checksum) (del : FsPath → Bool) :
    ∀ (dirs : List FsPath) (seen : List Checksum) (er : Nat) (d : FsPath),
      d ∈ dirs → cs d = none → d ∈ (eraseDupGo cs del dirs seen er).1
  | [], _, _, d, hd, _ => by simp at hd
  | d0 :: rest, seen, er, d, hd, hnone => by
      rcases List.mem_cons.mp hd with rfl | hd2
      · simp only [eraseDupGo, hnone]
        exact List.mem_cons_self d _
      · cases hcd : cs d0 with
        | none =>
          simp only [eraseDupGo, hcd]
          exact List.mem_cons_of_mem d0 (eraseDupGo_none_kept cs del rest seen er d hd2 hnone)
        | some c2 =>
          by_cases h2 : seen.contains c2
          · simp only [eraseDupGo, hcd, h2, if_pos]
            exact eraseDupGo_none_kept cs del rest seen _ d hd2 hnone
          · simp only [eraseDupGo, hcd, h2, if_neg, Bool.false_eq_true, not_false_iff]
            exact List.mem_cons_of_mem d0
              (eraseDupGo_none_kept cs del rest (c2 :: seen) er d hd2 hnone)

theorem eraseDupGo_fst_filter (cs : FsPath → Option Checksum) (del : FsPath → Bool)
    (c : Checksum) :
    ∀ (dirs : List FsPath) (seen : List Checksum) (er : Nat),
      (eraseDupGo cs del dirs seen er).1.filter (fun d => decide (cs d = some c)) =
        if seen.contains c then [] else (dirs.find? (fun d => decide (cs d = some c))).toList
  | [], seen, er => by
      by_cases h : seen.contains c <;> simp [eraseDupGo, h]
  | d :: rest, seen, er => by
      cases hcd : cs d with
      | none =>
        simp only [eraseDupGo, hcd]
        rw [List.filter_cons_of_neg (by simp [hcd])]
        rw [eraseDupGo_fst_filter cs del c rest seen er]
        rw [List.find?_cons_of_neg _ (by simp [hcd])]
      | some c2 =>
        by_cases h2 : seen.contains c2
        · simp only [eraseDupGo, hcd, h2, if_pos]
          rw [eraseDupGo_fst_filter cs del c rest seen _]
          by_cases hcc : c2 = c
          · subst hcc
            rw [if_pos h2, if_pos h2]
          · rw [List.find?_cons_of_neg _ (by simp [hcd, hcc])]
        · simp only [eraseDupGo, hcd, h2, if_neg, Bool.false_eq_true, not_false_iff]
          by_cases hcc : c2 = c
          · subst hcc
            rw [List.filter_cons_of_pos (by simp [hcd])]
            rw [eraseDupGo_fst_filter cs del c2 rest (c2 :: seen) er]
            rw [if_pos (by simp [List.contains_cons])]
            rw [if_neg (by simpa using h2)]
            rw [List.find?_cons_of_pos _ (by simp [hcd])]
            rfl
          · rw [List.filter_cons_of_neg (by simp [hcd, hcc])]
            rw [eraseDupGo_fst_filter cs del c rest (c2 :: seen) er]
            have hcont : (c2 :: seen).contains c = seen.contains c := by
              simp [List.contains_cons, Ne.symm hcc]
            rw [hcont]
            rw [List.find?_cons_of_neg _ (by simp [hcd, hcc])]

theorem eraseDupGo_snd_shift (cs : FsPath → Option Checksum) (del : FsPath → Bool) :
    ∀ (dirs : List FsPath) (seen : List Checksum) (er : Nat),
      (eraseDupGo cs del dirs seen er).2 = er + (eraseDupGo cs del dirs seen 0).2
  | [], _, er => by simp [eraseDupGo]
  | d :: rest, seen, er => by
      cases hcd : cs d with
      | none =>
        simp only [eraseDupGo, hcd]
        rw [eraseDupGo_snd_shift cs del rest seen er]
      | some c2 =>
        by_cases h2 : seen.contains c2
        · simp only [eraseDupGo, hcd, h2, if_pos]
          rw [eraseDupGo_snd_shift cs del rest seen (if del d then 0 + 1 else 0),
            eraseDupGo_snd_shift cs del rest seen (if del d then er + 1 else er)]
          by_cases hdel : del d
          · simp only [hdel, if_pos]
            omega
          · simp only [hdel, Bool.false_eq_true, if_neg, not_false_iff]
            omega
        · simp only [eraseDupGo, hcd, h2, if_neg, Bool.false_eq_true, not_false_iff]
          rw [eraseDupGo_snd_shift cs del rest (c2 :: seen) er]

theorem eraseDupGo_snd_count (cs : FsPath → Option Checksum) (del : FsPath → Bool) :
    ∀ (dirs : List FsPath) (seen : List Checksum), dirs.Nodup →
      (eraseDupGo cs del dirs seen 0).2 =
        (dirs.filter (fun d => !decide (d ∈ (eraseDupGo cs del dirs seen 0).1))).countP del
  | [], seen, _ => by simp [eraseDupGo]
  | d :: rest, seen, hnd => by
      have hd : d ∉ rest := (List.nodup_cons.mp hnd).1
      have hrest : rest.Nodup := (List.nodup_cons.mp hnd).2
      cases hcd : cs d with
      | none =>
        simp only [eraseDupGo, hcd]
        rw [List.filter_cons_of_neg (by simp)]
        have hcongr : rest.filter
              (fun x => !decide (x ∈ d :: (eraseDupGo cs del rest seen 0).1)) =
            rest.filter (fun x => !decide (x ∈ (eraseDupGo cs del rest seen 0).1)) := by
          apply List.filter_congr
          intro x hx
          have hxd : x ≠ d := fun h => hd (h ▸ hx)
          simp [List.mem_cons, hxd]
        rw [hcongr]
        exact eraseDupGo_snd_count cs del rest seen hrest
      | some c2 =>
        by_cases h2 : seen.contains c2
        · simp only [eraseDupGo, hcd, h2, if_pos]
          have hfst : (eraseDupGo cs del rest seen (if del d then 0 + 1 else 0)).1 =
              (eraseDupGo cs del rest seen 0).1 :=
            eraseDupGo_fst_congr cs del del rest seen _ 0
          rw [hfst, eraseDupGo_snd_shift cs del rest seen _]
          have hdr : d ∉ (eraseDupGo cs del rest seen 0).1 := fun h =>
            hd ((eraseDupGo_fst_sublist cs del rest seen 0).subset h)
          rw [List.filter_cons_of_pos (by simp [hdr])]
          rw [List.countP_cons]
          rw [eraseDupGo_snd_count cs del rest seen hrest]
          by_cases hdel : del d
          · simp only [hdel, if_pos]
            omega
          · simp only [hdel, Bool.false_eq_true, if_neg, not_false_iff]
            omega
        · simp only [eraseDupGo, hcd, h2, if_neg, Bool.false_eq_true, not_false_iff]
          rw [List.filter_cons_of_neg (by simp)]
          have hcongr : rest.filter
              (fun x => !decide (x ∈ d :: (eraseDupGo cs del rest (c2 :: seen) 0).1)) =
            rest.filter (fun x => !decide (x ∈ (eraseDupGo cs del rest (c2 :: seen) 0).1)) := by
            apply List.filter_congr
            intro x hx
            have hxd : x ≠ d := fun h => hd (h ▸ hx)
            simp [List.mem_cons, hxd]
          rw [hcongr]
          exact eraseDupGo_snd_count cs del rest (c2 :: seen) hrest

/-- Claim C5: the deduplication pass keeps, for every fingerprint value,
exactly the entry appearing earliest in scan order (the retained entries
with that fingerprint are exactly the first match of the input), removes
every later entry with an equal fingerprint, keeps every entry whose
fingerprint is unavailable, and preserves scan order (the result is a
sublist of the input). The function cs gives the outcome of
Checksum::from_dir for each entry at the moment it is processed and del the
outcome of the disk deletion; the statement holds for every such pair of
outcomes. -/
theorem erase_duplicates_first_seen_wins (cs : FsPath → Option Checksum)
    (del : FsPath → Bool) (dirs : List FsPath) (c : Checksum) :
    ((Scan.erase_duplicates cs del dirs).1.filter (fun d => decide (cs d = some c)) =
      (dirs.find? (fun d => decide (cs d = some c))).toList) ∧
    (∀ d ∈ dirs, cs d = none → d ∈ (Scan.erase_duplicates cs del dirs).1) ∧
    (Scan.erase_duplicates cs del dirs).1.Sublist dirs := by
  refine ⟨?_, ?_, eraseDupGo_fst_sublist cs del dirs [] 0⟩
  · have h := eraseDupGo_fst_filter cs del c dirs [] 0
    simpa [Scan.erase_duplicates] using h
  · intro d hd hnone
    exact eraseDupGo_none_kept cs del dirs [] 0 d hd hnone

/-- Fingerprint outcomes for the dedup witnesses: directories a and c carry
the same fingerprint, directory b has none. -/
def csW : FsPath → Option Checksum := fun d =>
  if d = ["b"] then none else some ⟨[1], [2], [3]⟩

/-- Witness for C5 on a concrete run: among a, b, c where a and c share a
fingerprint, the retained entries with that fingerprint are exactly the
first match, a. -/
theorem erase_duplicates_first_seen_wins_witness :
    (Scan.erase_duplicates csW (fun _ => true) [["a"], ["b"], ["c"]]).1.filter
      (fun d => decide (csW d = some ⟨[1], [2], [3]⟩)) =
    ([["a"], ["b"], ["c"]].find? (fun d => decide (csW d = some ⟨[1], [2], [3]⟩))).toList :=
  (erase_duplicates_first_seen_wins csW (fun _ => true) [["a"], ["b"], ["c"]]
    ⟨[1], [2], [3]⟩).1

/-- Claim C8: the in-memory result of deduplication does not depend on
whether the disk deletions succeed (a duplicate is removed from the result
set even when its deletion fails), while the erased counter counts exactly
the removed entries whose deletion succeeded. -/
theorem erase_duplicates_memory_vs_disk (cs : FsPath → Option Checksum)
    (del : FsPath → Bool) (dirs : List FsPath) :
    ((Scan.erase_duplicates cs del dirs).1 =
      (Scan.erase_duplicates cs (fun _ => true) dirs).1) ∧
    (dirs.Nodup → (Scan.erase_duplicates cs del dirs).2 =
      (dirs.filter
        (fun d => !decide (d ∈ (Scan.erase_duplicates cs del dirs).1))).countP del) := by
  refine ⟨eraseDupGo_fst_congr cs del (fun _ => true) dirs [] 0 0, ?_⟩
  intro hnd
  exact eraseDupGo_snd_count cs del dirs [] hnd

/-- Deletion outcome for the C8 witness: deleting directory c fails. -/
def delW : FsPath → Bool := fun d => !decide (d = ["c"])

/-- Witness for C8 on a concrete run in which the duplicate c fails to
delete: the counter still counts only the successful deletions. -/
theorem erase_duplicates_memory_vs_disk_witness :
    (Scan.erase_duplicates csW delW [["a"], ["b"], ["c"]]).2 =
      (([["a"], ["b"], ["c"]] : List FsPath).filter
        (fun d => !decide (d ∈ (Scan.erase_duplicates csW delW [["a"], ["b"], ["c"]]).1))).countP
        delW :=
  (erase_duplicates_memory_vs_disk csW delW [["a"], ["b"], ["c"]]).2 (by decide)

/-! Lemmas about Move::new. -/

theorem searchName_some_not_bad (bad : FsPath → Bool) (mk : Nat → FsPath) :
    ∀ (r attempt : Nat) (p : FsPath), searchName bad mk attempt r = some p → bad p = false
  | 0, attempt, p => fun h => by
      rw [searchName] at h
      by_cases hb : bad (mk attempt)
      · rw [if_pos hb] at h
        exact Option.noConfusion h
      · rw [if_neg hb] at h
        cases h
        simpa using hb
  | r + 1, attempt, p => fun h => by
      rw [searchName] at h
      by_cases hb : bad (mk attempt)
      · rw [if_pos hb] at h
        exact searchName_some_not_bad bad mk r (attempt + 1) p h
      · rw [if_neg hb] at h
        cases h
        simpa using hb

theorem moveGo_length (fs : Entry) (target : FsPath) (pre : String) (keep : Bool)
    (skip : Nat) : ∀ (dirs : List FsPath) (outputSet : List FsPath),
    (Move.go fs target pre keep skip dirs outputSet).length = dirs.length
  | [], _ => rfl
  | dir :: rest, outputSet => by
      rw [Move.go]
      split
      · simp [moveGo_length fs target pre keep skip rest outputSet]
      · split
        · simp [moveGo_length fs target pre keep skip rest _]
        · simp [moveGo_length fs target pre keep skip rest outputSet]

theorem moveGo_fresh (fs : Entry) (target : FsPath) (pre : String) (keep : Bool)
    (skip : Nat) : ∀ (dirs : List FsPath) (outputSet : List FsPath),
    ((Move.go fs target pre keep skip dirs outputSet).filterMap id).Nodup ∧
    ∀ x ∈ (Move.go fs target pre keep skip dirs outputSet).filterMap id,
      x ∉ outputSet ∧ pathExists fs x = false
  | [], _ => by simp [Move.go]
  | dir :: rest, outputSet => by
      rw [Move.go]
      split
      · simpa using moveGo_fresh fs target pre keep skip rest outputSet
      · rename_i params ofn maxAttempts heq
        split
        · rename_i r hs
          have hbad := searchName_some_not_bad _ _ _ _ _ hs
          rw [Bool.or_eq_false_iff] at hbad
          have hnotin : r ∉ outputSet := by
            intro hin
            have hc : outputSet.contains r = true := List.elem_iff.mpr hin
            rw [hc] at hbad
            exact Bool.noConfusion hbad.1
          obtain ⟨ihnd, ihmem⟩ := moveGo_fresh fs target pre keep skip rest (r :: outputSet)
          refine ⟨List.nodup_cons.mpr ⟨?_, ihnd⟩, ?_⟩
          · intro hmem
            exact (ihmem r hmem).1 (List.mem_cons_self r outputSet)
          · intro x hx
            rcases List.mem_cons.mp hx with rfl | hx2
            · exact ⟨hnotin, hbad.2⟩
            · obtain ⟨hni, hne⟩ := ihmem x hx2
              exact ⟨fun hin => hni (List.mem_cons_of_mem _ hin), hne⟩
        · rename_i hs
          simpa using moveGo_fresh fs target pre keep skip rest outputSet

/-- Claim C1: over a fixed filesystem state, a successful planning run
yields pairwise distinct planned destinations, none of which is a path that
already exists on disk. -/
theorem moveNew_destinations_distinct_and_fresh (fs : Entry) (root : FsPath)
    (dirs : List FsPath) (target : FsPath) (pre : String) (keep : Bool)
    (out : List (Option FsPath)) (h : Move.new fs root dirs target pre keep = .ok out) :
    (out.filterMap id).Nodup ∧ ∀ x ∈ out.filterMap id, pathExists fs x = false := by
  unfold Move.new at h
  by_cases ht : pathIsDir fs target
  · rw [if_pos ht] at h
    cases h
    obtain ⟨hnd, hmem⟩ := moveGo_fresh fs target pre keep root.length dirs []
    exact ⟨hnd, fun x hx => (hmem x hx).2⟩
  · rw [if_neg ht] at h
    exact Except.noConfusion h

/-- Witness for C1 on a concrete two-source run into an empty target. -/
theorem moveNew_destinations_distinct_and_fresh_witness :
    (([some ["t", "pf_000000"], some ["t", "pf_000001"]] :
      List (Option FsPath)).filterMap id).Nodup :=
  (moveNew_destinations_distinct_and_fresh (.dir [("t", .dir [])]) [] [["x"], ["y"]]
    ["t"] "pf_" false [some ["t", "pf_000000"], some ["t", "pf_000001"]] rfl).1

/-- Target path of the C9 counterexample resolves to a regular file, not a
directory. -/
def fsC9 : Entry := .dir [("t", .file [])]

/-- Claim C9, counterexample: a target that exists on disk as a regular
file makes Move::new fail as a whole, so existence of the target is not
enough for planning to succeed. -/
theorem moveNew_error_on_existing_file_target_counterexample :
    pathExists fsC9 ["t"] = true ∧
    exceptIsOk (Move.new fsC9 [] [["x"]] ["t"] "pf_" false) = false := by
  decide

/-- Claim C9, amended: Move::new fails exactly when the target path is not
a directory (missing, or an entry of another kind); whenever the target is
a directory, planning succeeds and produces one destination option per
source directory, so per-entry exhaustion or degenerate source paths never
fail the pipeline. -/
theorem moveNew_ok_iff_target_dir (fs : Entry) (root : FsPath) (dirs : List FsPath)
    (target : FsPath) (pre : String) (keep : Bool) :
    exceptIsOk (Move.new fs root dirs target pre keep) = pathIsDir fs target ∧
    ∀ out, Move.new fs root dirs target pre keep = .ok out → out.length = dirs.length := by
  constructor
  · unfold Move.new
    by_cases ht : pathIsDir fs target
    · rw [if_pos ht, ht]
      rfl
    · rw [if_neg ht]
      have h0 : pathIsDir fs target = false := by simpa using ht
      rw [h0]
      rfl
  · intro out h
    unfold Move.new at h
    by_cases ht : pathIsDir fs target
    · rw [if_pos ht] at h
      cases h
      exact moveGo_length fs target pre keep root.length dirs []
    · rw [if_neg ht] at h
      exact Except.noConfusion h

/-- Witness for the amended C9 on the concrete file-target filesystem. -/
theorem moveNew_ok_iff_target_dir_witness :
    exceptIsOk (Move.new fsC9 [] [["x"]] ["t"] "pf_" false) = pathIsDir fsC9 ["t"] :=
  (moveNew_ok_iff_target_dir fsC9 [] [["x"]] ["t"] "pf_" false).1

/-! Lemmas about path-preserving name construction. -/

theorem foldl_underscore (fname : String) :
    ∀ (comps : List String) (pre : String),
      (comps.foldl (fun acc c => acc ++ c ++ "_") pre) ++ fname =
        pre ++ underscoreJoin (comps ++ [fname])
  | [], pre => by
      simp [underscoreJoin]
  | c :: cs, pre => by
      rw [List.foldl_cons]
      rw [foldl_underscore fname cs (pre ++ c ++ "_")]
      have hjoin : underscoreJoin (c :: (cs ++ [fname])) =
          c ++ "_" ++ underscoreJoin (cs ++ [fname]) := by
        cases cs <;> rfl
      rw [List.cons_append, hjoin]
      rw [String.append_assoc, String.append_assoc, String.append_assoc]

/-- Claim C6, amended: in path-preserving mode, for a source directory at
root ++ comps ++ [leaf], the original file name keeps comps and strips the
configured prefix from the leaf repeatedly, as often as the leaf still
begins with it (not just once); the first candidate destination is the
prefix followed by the components and the stripped leaf joined with
underscores. -/
theorem move_rename_base_name (root comps : List Name) (leaf : Name) (pre : String)
    (target : FsPath) :
    OriginalFileName.new pre root.length (root ++ (comps ++ [leaf])) =
      some ⟨comps, OriginalFileName.stripped leaf pre⟩ ∧
    Move.rename target pre 0 (some ⟨comps, OriginalFileName.stripped leaf pre⟩) =
      target ++ [pre ++ underscoreJoin (comps ++ [OriginalFileName.stripped leaf pre])] := by
  constructor
  · unfold OriginalFileName.new
    rw [List.drop_left]
    simp only [List.getLast?_concat, List.dropLast_concat]
  · simp only [Move.rename, lt_irrefl, if_false]
    rw [foldl_underscore]

/-- Claim C6, counterexample: with a leaf that starts with the prefix
twice, the source strips the prefix twice, so the planned name differs from
the one predicted by stripping it once. -/
theorem stripped_not_once_counterexample :
    Move.rename ["t"] "pf_portrait_" 0
      (OriginalFileName.new "pf_portrait_" 0 ["A", "B", "pf_portrait_pf_portrait_C"]) =
      ["t", "pf_portrait_A_B_C"] ∧
    "pf_portrait_" ++ underscoreJoin
      (["A", "B"] ++ [strippedOnce "pf_portrait_pf_portrait_C" "pf_portrait_"]) =
      "pf_portrait_A_B_pf_portrait_C" ∧
    ("pf_portrait_A_B_C" : String) ≠ "pf_portrait_A_B_pf_portrait_C" := by
  decide

/-! Lemmas about the sequential fallback naming of Move::new. -/

theorem searchName_hit (bad : FsPath → Bool) (mk : Nat → FsPath) (attempt r : Nat)
    (h : bad (mk attempt) = false) : searchName bad mk attempt r = some (mk attempt) := by
  cases r with
  | zero => rw [searchName, if_neg (by simp [h])]
  | succ r2 => rw [searchName, if_neg (by simp [h])]

theorem searchName_step (bad : FsPath → Bool) (mk : Nat → FsPath) (attempt r : Nat)
    (h : bad (mk attempt) = true) (hr : 0 < r) :
    searchName bad mk attempt r = searchName bad mk (attempt + 1) (r - 1) := by
  cases r with
  | zero => exact absurd hr (by omega)
  | succ r2 => rw [searchName, if_pos h, Nat.succ_sub_one]

/-- When every candidate before index k is taken and the candidate at k is
free, the search loop of Move::new accepts exactly the candidate at k,
provided the attempt budget reaches it. -/
theorem searchName_first_free (bad : FsPath → Bool) (mk : Nat → FsPath) (k : Nat)
    (hcoll : ∀ b, b < k → bad (mk b) = true) (hfree : bad (mk k) = false) :
    ∀ (r a : Nat), a ≤ k → k - a ≤ r → searchName bad mk a r = some (mk k)
  | r, a, hak, hkr => by
      by_cases heq : a = k
      · subst heq
        exact searchName_hit bad mk a r hfree
      · have ha : a < k := Nat.lt_of_le_of_ne hak heq
        have hr : 0 < r := by omega
        rw [searchName_step bad mk a r (hcoll a ha) hr]
        exact searchName_first_free bad mk k hcoll hfree (r - 1) (a + 1) (by omega) (by omega)
  termination_by r _ => r
  decreasing_by omega

theorem pathExists_empty_target (fs : Entry) (target : FsPath) (x : Name)
    (h : fs.find target = some (.dir [])) : pathExists fs (target ++ [x]) = false := by
  rw [pathExists, Entry.find_append, h]
  simp [Entry.find]

theorem strAppend_left_cancel {s a b : String} (h : s ++ a = s ++ b) : a = b := by
  have hd := congrArg String.data h
  rw [String.data_append, String.data_append] at hd
  exact String.ext (List.append_cancel_left hd)

theorem fallbackCand_ne (target : FsPath) (pre : String) {i j : Nat}
    (hij : padZeros 6 i ≠ padZeros 6 j) :
    (target ++ [pre ++ padZeros 6 i]) ≠ (target ++ [pre ++ padZeros 6 j]) := by
  intro h
  have h2 := List.append_cancel_left h
  have h3 : pre ++ padZeros 6 i = pre ++ padZeros 6 j := by
    injection h2
  exact hij (strAppend_left_cancel h3)

/-- Unfolding of one planning step with keep_original_path disabled. -/
theorem moveGo_false_cons (fs : Entry) (target : FsPath) (pre : String) (skip : Nat)
    (dir : FsPath) (rest : List FsPath) (S : List FsPath) :
    Move.go fs target pre false skip (dir :: rest) S =
      match searchName (fun r => S.contains r || pathExists fs r)
          (fun a => Move.rename target pre a none) 0
          (MAX_ATTEMPTS_WHEN_NO_NEED_TO_KEEP_ORIGINAL_FILENAME - 1) with
      | some r => some r :: Move.go fs target pre false skip rest (r :: S)
      | none => none :: Move.go fs target pre false skip rest S := rfl

/-- Claim C7: with keep_original_path false and an empty target directory,
the first five planned destinations are the prefix followed by 000000 up to
000004, in order, even though the attempt counter restarts at zero for
every source directory. -/
theorem moveNew_sequential_fallback_first_five (fs : Entry) (root : FsPath)
    (dirs : List FsPath) (target : FsPath) (pre : String) (out : List (Option FsPath))
    (hempty : fs.find target = some (.dir [])) (hlen : 5 ≤ dirs.length)
    (h : Move.new fs root dirs target pre false = .ok out) :
    out.take 5 = [some (target ++ [pre ++ "000000"]), some (target ++ [pre ++ "000001"]),
      some (target ++ [pre ++ "000002"]), some (target ++ [pre ++ "000003"]),
      some (target ++ [pre ++ "000004"])] := by
  have h1 : dirs ≠ [] := by intro hh; rw [hh] at hlen; simp at hlen
  obtain ⟨d1, r1, rfl⟩ := List.exists_cons_of_ne_nil h1
  have h2 : r1 ≠ [] := by intro hh; rw [hh] at hlen; simp at hlen
  obtain ⟨d2, r2, rfl⟩ := List.exists_cons_of_ne_nil h2
  have h3 : r2 ≠ [] := by intro hh; rw [hh] at hlen; simp at hlen
  obtain ⟨d3, r3, rfl⟩ := List.exists_cons_of_ne_nil h3
  have h4 : r3 ≠ [] := by intro hh; rw [hh] at hlen; simp at hlen
  obtain ⟨d4, r4, rfl⟩ := List.exists_cons_of_ne_nil h4
  have h5 : r4 ≠ [] := by intro hh; rw [hh] at hlen; simp at hlen
  obtain ⟨d5, r5, rfl⟩ := List.exists_cons_of_ne_nil h5
  have hdir : pathIsDir fs target = true := by unfold pathIsDir; rw [hempty]
  unfold Move.new at h
  rw [if_pos hdir] at h
  cases h
  have hex : ∀ x : Name, pathExists fs (target ++ [x]) = false :=
    fun x => pathExists_empty_target fs target x hempty
  have hp10 : padZeros 6 1 ≠ padZeros 6 0 := by decide
  have hp20 : padZeros 6 2 ≠ padZeros 6 0 := by decide
  have hp21 : padZeros 6 2 ≠ padZeros 6 1 := by decide
  have hp30 : padZeros 6 3 ≠ padZeros 6 0 := by decide
  have hp31 : padZeros 6 3 ≠ padZeros 6 1 := by decide
  have hp32 : padZeros 6 3 ≠ padZeros 6 2 := by decide
  have hp40 : padZeros 6 4 ≠ padZeros 6 0 := by decide
  have hp41 : padZeros 6 4 ≠ padZeros 6 1 := by decide
  have hp42 : padZeros 6 4 ≠ padZeros 6 2 := by decide
  have hp43 : padZeros 6 4 ≠ padZeros 6 3 := by decide
  have hc10 := fallbackCand_ne target pre hp10
  have hc20 := fallbackCand_ne target pre hp20
  have hc21 := fallbackCand_ne target pre hp21
  have hc30 := fallbackCand_ne target pre hp30
  have hc31 := fallbackCand_ne target pre hp31
  have hc32 := fallbackCand_ne target pre hp32
  have hc40 := fallbackCand_ne target pre hp40
  have hc41 := fallbackCand_ne target pre hp41
  have hc42 := fallbackCand_ne target pre hp42
  have hc43 := fallbackCand_ne target pre hp43
  have hbudget : ∀ k : Nat, k ≤ 4 →
      k - 0 ≤ MAX_ATTEMPTS_WHEN_NO_NEED_TO_KEEP_ORIGINAL_FILENAME - 1 := by
    intro k hk
    simp only [MAX_ATTEMPTS_WHEN_NO_NEED_TO_KEEP_ORIGINAL_FILENAME]
    omega
  have hs1 : searchName (fun r => ([] : List FsPath).contains r || pathExists fs r)
      (fun a => Move.rename target pre a none) 0
      (MAX_ATTEMPTS_WHEN_NO_NEED_TO_KEEP_ORIGINAL_FILENAME - 1) =
      some (Move.rename target pre 0 none) :=
    searchName_hit _ _ 0 _ (by simp [Move.rename, hex])
  have hs2 : searchName
      (fun r => ([Move.rename target pre 0 none] : List FsPath).contains r || pathExists fs r)
      (fun a => Move.rename target pre a none) 0
      (MAX_ATTEMPTS_WHEN_NO_NEED_TO_KEEP_ORIGINAL_FILENAME - 1) =
      some (Move.rename target pre 1 none) := by
    apply searchName_first_free _ _ 1 ?_ ?_ _ 0 (by omega) (hbudget 1 (by omega))
    · intro b hb
      interval_cases b
      simp [Move.rename]
    · simp [Move.rename, hex, hc10]
  have hs3 : searchName
      (fun r => ([Move.rename target pre 1 none, Move.rename target pre 0 none] :
        List FsPath).contains r || pathExists fs r)
      (fun a => Move.rename target pre a none) 0
      (MAX_ATTEMPTS_WHEN_NO_NEED_TO_KEEP_ORIGINAL_FILENAME - 1) =
      some (Move.rename target pre 2 none) := by
    apply searchName_first_free _ _ 2 ?_ ?_ _ 0 (by omega) (hbudget 2 (by omega))
    · intro b hb
      interval_cases b <;> simp [Move.rename]
    · simp [Move.rename, hex, hc20, hc21]
  have hs4 : searchName
      (fun r => ([Move.rename target pre 2 none, Move.rename target pre 1 none,
        Move.rename target pre 0 none] : List FsPath).contains r || pathExists fs r)
      (fun a => Move.rename target pre a none) 0
      (MAX_ATTEMPTS_WHEN_NO_NEED_TO_KEEP_ORIGINAL_FILENAME - 1) =
      some (Move.rename target pre 3 none) := by
    apply searchName_first_free _ _ 3 ?_ ?_ _ 0 (by omega) (hbudget 3 (by omega))
    · intro b hb
      interval_cases b <;> simp [Move.rename]
    · simp [Move.rename, hex, hc30, hc31, hc32]
  have hs5 : searchName
      (fun r => ([Move.rename target pre 3 none, Move.rename target pre 2 none,
        Move.rename target pre 1 none, Move.rename target pre 0 none] :
        List FsPath).contains r || pathExists fs r)
      (fun a => Move.rename target pre a none) 0
      (MAX_ATTEMPTS_WHEN_NO_NEED_TO_KEEP_ORIGINAL_FILENAME - 1) =
      some (Move.rename target pre 4 none) := by
    apply searchName_first_free _ _ 4 ?_ ?_ _ 0 (by omega) (hbudget 4 (by omega))
    · intro b hb
      interval_cases b <;> simp [Move.rename]
    · simp [Move.rename, hex, hc40, hc41, hc42, hc43]
  rw [moveGo_false_cons, hs1]
  dsimp only
  rw [moveGo_false_cons, hs2]
  dsimp only
  rw [moveGo_false_cons, hs3]
  dsimp only
  rw [moveGo_false_cons, hs4]
  dsimp only
  rw [moveGo_false_cons, hs5]
  dsimp only
  have hpad0 : padZeros 6 0 = "000000" := by decide
  have hpad1 : padZeros 6 1 = "000001" := by decide
  have hpad2 : padZeros 6 2 = "000002" := by decide
  have hpad3 : padZeros 6 3 = "000003" := by decide
  have hpad4 : padZeros 6 4 = "000004" := by decide
  simp [Move.rename, List.take_succ_cons, hpad0, hpad1, hpad2, hpad3, hpad4]

/-- Empty target directory for the C7 witness. -/
def fsC7 : Entry := .dir [("t", .dir [])]

/-- Witness for C7 on a concrete run of five sources into an empty target. -/
theorem moveNew_sequential_fallback_first_five_witness :
    (([some ["t", "pf_000000"], some ["t", "pf_000001"], some ["t", "pf_000002"],
       some ["t", "pf_000003"], some ["t", "pf_000004"]] : List (Option FsPath)).take 5 =
      [some ["t", "pf_000000"], some ["t", "pf_000001"], some ["t", "pf_000002"],
       some ["t", "pf_000003"], some ["t", "pf_000004"]]) :=
  moveNew_sequential_fallback_first_five fsC7 [] [["a"], ["b"], ["c"], ["d"], ["e"]]
    ["t"] "pf_" _ rfl (by decide) rfl
